import Mathlib

/-!
Verification of the gtr package (go-junit-report): the report data model,
`IsSuccessful`, output normalization (`trimOutputPrefix` / `formatOutput`),
benchmark aggregation (`mergeBenchmarks`) and the JUnit renderer (`JUnit`).

Go strings are embedded as `List Char` (all string prefixes handled here are
ASCII, so byte indices and rune indices coincide on them); `time.Duration`
(an int64 count of nanoseconds) as `Int`; `float64` as `ℚ` (exact field
arithmetic stands in for IEEE arithmetic); int64 arithmetic as `Int`
arithmetic with Go's truncated division `Int.tdiv` (overflow is not
modelled). Fields keep the source's names.
-/

/-- A Go string, embedded as its list of characters. -/
abbrev GoString := List Char

namespace Junit

/-- Modelled from the spec: the junit package's schema types are not among the
provided sources; §6 gives Testsuites → Testsuite{name, timestamp, hostname,
properties, system-out, testcases, total time} → Testcase{classname, name,
time, optional one-of failure/error/skipped record{message, data}}.
A suite property is a name/value pair. -/
structure Property where
  Name : GoString
  Value : GoString
deriving DecidableEq, Repr

/-- Modelled from the spec: a captured-output block (junit.Output). -/
structure Output where
  Data : GoString
deriving DecidableEq, Repr

/-- Modelled from the spec: a failure/error/skipped child record
(junit.Result) with a message and an optional detail payload. -/
structure Result where
  Message : GoString
  Data : GoString := []
deriving DecidableEq, Repr

/-- Modelled from the spec: one test-case (junit.Testcase) with classname,
name, time and the optional one-of failure/error/skipped records. -/
structure Testcase where
  Classname : GoString
  Name : GoString
  Time : GoString
  Failure : Option Result := none
  Error : Option Result := none
  Skipped : Option Result := none
deriving DecidableEq, Repr

/-- Modelled from the spec: one test-suite (junit.Testsuite). -/
structure Testsuite where
  Name : GoString
  Timestamp : GoString
  Hostname : GoString
  Time : GoString := []
  Properties : List Property := []
  SystemOut : Option Output := none
  Testcases : List Testcase := []
deriving DecidableEq, Repr

/-- Modelled from the spec: the document root (junit.Testsuites). -/
structure Testsuites where
  Suites : List Testsuite := []
deriving DecidableEq, Repr

/-- Modelled from the spec: junit.Testsuite.AddProperty appends one property
to the suite. -/
def Testsuite.AddProperty (s : Testsuite) (name value : GoString) : Testsuite :=
  { s with Properties := s.Properties ++ [{ Name := name, Value := value }] }

/-- Modelled from the spec: junit.Testsuite.AddTestcase appends one test-case
to the suite. -/
def Testsuite.AddTestcase (s : Testsuite) (tc : Testcase) : Testsuite :=
  { s with Testcases := s.Testcases ++ [tc] }

/-- Modelled from the spec: junit.Testsuites.AddSuite appends one suite. -/
def Testsuites.AddSuite (ss : Testsuites) (s : Testsuite) : Testsuites :=
  { ss with Suites := ss.Suites ++ [s] }

/-- Decimal digits of a natural number. -/
def natChars (n : Nat) : GoString := Nat.toDigits 10 n

/-- `natChars` left-padded with zeros to width `w`. -/
def padZero (w : Nat) (n : Nat) : GoString :=
  List.replicate (w - (natChars n).length) '0' ++ natChars n

/-- Modelled from the spec: junit.FormatDuration renders a duration per the
schema's fixed decimal-seconds convention; modelled as seconds with three
decimal places (sub-millisecond part truncated toward zero). -/
def FormatDuration (d : Int) : GoString :=
  let ms := Int.tdiv d 1000000
  let sign : GoString := if ms < 0 then ['-'] else []
  sign ++ natChars (ms.natAbs / 1000) ++ ['.'] ++ padZero 3 (ms.natAbs % 1000)

/-- Modelled from the spec: junit.FormatBenchmarkTime renders a benchmark
duration derived from ns/op; modelled as seconds with nine decimal places. -/
def FormatBenchmarkTime (d : Int) : GoString :=
  let sign : GoString := if d < 0 then ['-'] else []
  sign ++ natChars (d.natAbs / 1000000000) ++ ['.'] ++ padZero 9 (d.natAbs % 1000000000)

end Junit

namespace Gtr

/-- Modelled from the spec: the Result enum (Pass, Fail, Skip, Unknown) is
declared outside the provided sources. Unknown is the zero value, matching
the spec's degrade-gracefully policy ("producing an 'unknown' result",
"Unknown means the stream ended without an explicit end event"). -/
inductive Result where
  | Unknown
  | Pass
  | Fail
  | Skip
deriving DecidableEq, Repr

/-- gtr.Error: a build or run failure. Field defaults are Go's zero values. -/
structure Error where
  Name : GoString := []
  Duration : Int := 0
  Cause : GoString := []
  Output : List GoString := []
deriving DecidableEq, Repr

/-- gtr.Test. -/
structure Test where
  Name : GoString := []
  Duration : Int := 0
  Result : Result := .Unknown
  Level : Int := 0
  Output : List GoString := []
deriving DecidableEq, Repr

/-- gtr.Benchmark. float64 metrics are embedded as ℚ, int64 ones as Int. -/
structure Benchmark where
  Name : GoString := []
  Result : Result := .Unknown
  Output : List GoString := []
  Iterations : Int := 0
  NsPerOp : ℚ := 0
  MBPerSec : ℚ := 0
  BytesPerOp : Int := 0
  AllocsPerOp : Int := 0
deriving DecidableEq, Repr

/-- gtr.Package. -/
structure Package where
  Name : GoString := []
  Duration : Int := 0
  Coverage : ℚ := 0
  Output : List GoString := []
  Tests : List Test := []
  Benchmarks : List Benchmark := []
  BuildError : Error := {}
  RunError : Error := {}
deriving DecidableEq, Repr

/-- gtr.Report. -/
structure Report where
  Packages : List Package := []
deriving DecidableEq, Repr

/-- gtr.Report.IsSuccessful: the early-return loops of the source rendered as
`List.all`: false as soon as a package has a build/run error (non-empty name)
or a test whose result is neither Pass nor Skip. -/
def Report.IsSuccessful (r : Report) : Bool :=
  r.Packages.all fun pkg =>
    !(pkg.BuildError.Name != [] || pkg.RunError.Name != []) &&
    pkg.Tests.all fun t => !(t.Result != Result.Pass && t.Result != Result.Skip)

/-- strings.TrimPrefix: drop `pre` from the front of `line` when it is a
prefix, else return `line` unchanged. -/
def TrimPrefix (line pre : GoString) : GoString :=
  if pre.isPrefixOf line then line.drop pre.length else line

/-- strings.IndexFunc(line, fun r => r ≠ ' '): the index of the first
non-space character, -1 when there is none (empty or all-space line). When it
exists, that index is the length of the leading run of spaces. -/
def goIndexNonSpace (line : GoString) : Int :=
  if line.all (fun c => c == ' ') then -1
  else ((line.takeWhile fun c => c == ' ').length : Int)

/-- The four-space indent group trimmed by the source. -/
def fourSpaces : GoString := List.replicate 4 ' '

/-- The `for i := 0; i <= level; i++` loop of trimOutputPrefix: `k`
sequential attempts to trim one leading four-space group each. -/
def trimLoop : Nat → GoString → GoString
  | 0, line => line
  | k + 1, line => trimLoop k (TrimPrefix line fourSpaces)

/-- gtr.trimOutputPrefix. Go's `%` is truncated division's remainder
(`Int.tmod`), so the -1 of an all-space line does not count as a multiple of
4; the trim loop runs level+1 times (zero times when level < 0, as in Go). -/
def trimOutputPrefix (line : GoString) (level : Int) : GoString :=
  let prefixLen := goIndexNonSpace line
  let line := if Int.tmod prefixLen 4 = 0 then trimLoop (level + 1).toNat line else line
  TrimPrefix line ['\t']

/-- gtr.formatOutput: normalize each line at the given level and join the
lines with newlines (strings.Join with separator newline). -/
def formatOutput (output : List GoString) (level : Int) : GoString :=
  List.intercalate ['\n'] (output.map fun line => trimOutputPrefix line level)

/-- gtr.mergeBenchmarks. First loop: one zero-valued stub per first-seen name
(the benchmap existence test is `acc.any`); the map groups every benchmark
under its name in input order, which is `List.filter` by name. Second loop:
for each stub, sum each metric over the name's group starting from the
stub's zero value and divide by the group size — float64 division for ns/op
and MB/s (exact division in the ℚ embedding), Go's truncated int64 division
(`Int.tdiv`) for bytes/op and allocs/op. The stub's other fields (Result,
Output, Iterations) are kept as the zero values Go leaves in `merged[i]`. -/
def mergeBenchmarks (benchmarks : List Benchmark) : List Benchmark :=
  let merged := benchmarks.foldl
    (fun (acc : List Benchmark) bm =>
      if acc.any fun m => m.Name == bm.Name then acc else acc ++ [{ Name := bm.Name }])
    ([] : List Benchmark)
  merged.map fun bm =>
    let group := benchmarks.filter fun b => b.Name == bm.Name
    let n := group.length
    { bm with
      NsPerOp := (group.foldl (fun a b => a + b.NsPerOp) 0) / (n : ℚ)
      MBPerSec := (group.foldl (fun a b => a + b.MBPerSec) 0) / (n : ℚ)
      BytesPerOp := Int.tdiv (group.foldl (fun a b => a + b.BytesPerOp) 0) (n : Int)
      AllocsPerOp := Int.tdiv (group.foldl (fun a b => a + b.AllocsPerOp) 0) (n : Int) }

/-- The distinct benchmark names in first-seen order, skipping those already
in `seen`: the specification-side description of the first mergeBenchmarks
loop. -/
def firstSeenAux (seen : List GoString) : List Benchmark → List GoString
  | [] => []
  | b :: bs =>
    if b.Name ∈ seen then firstSeenAux seen bs
    else b.Name :: firstSeenAux (b.Name :: seen) bs

/-- The distinct benchmark names of a list, in first-seen order. -/
def firstSeenNames (bs : List Benchmark) : List GoString := firstSeenAux [] bs

/-- The zero-valued Benchmark stub `Benchmark{Name: name}`. -/
def benchStub (name : GoString) : Benchmark := { Name := name }

/-- The fixed message of a failure record. -/
def strFailed : GoString := "Failed".toList

/-- The fixed message of the error record for a test with no result. -/
def strNoResult : GoString := "No test result found".toList

/-- The fixed message of a build-error record. -/
def strBuildError : GoString := "Build error".toList

/-- The fixed message of a run-error record. -/
def strRunError : GoString := "Run error".toList

/-- The fixed name of the synthetic run-error test-case. -/
def strFailureName : GoString := "Failure".toList

/-- The name of the coverage property. -/
def covKey : GoString := "coverage.statements.pct".toList

/-- gtr.propPrefixes: the fixed allow-list of recognized property keys. -/
def propPrefixes (k : GoString) : Bool :=
  k == "goos".toList || k == "goarch".toList || k == "pkg".toList

/-- gtr.propFieldsFunc: the separators of a property line. -/
def propFieldsFunc (r : Char) : Bool := r == ':' || r == ' '

/-- Accumulator recursion behind strings.FieldsFunc: `acc` holds the current
field reversed; separators close the field, empty fields are dropped. -/
def fieldsFuncAux (f : Char → Bool) : GoString → GoString → List GoString
  | [], acc => if acc.isEmpty then [] else [acc.reverse]
  | c :: rest, acc =>
    if f c then
      (if acc.isEmpty then fieldsFuncAux f rest [] else acc.reverse :: fieldsFuncAux f rest [])
    else fieldsFuncAux f rest (c :: acc)

/-- strings.FieldsFunc: maximal runs of characters on which `f` is false. -/
def FieldsFunc (line : GoString) (f : Char → Bool) : List GoString :=
  fieldsFuncAux f line []

/-- The renderer's inline property scan of one output line: exactly two
fields under propFieldsFunc, the first on the allow-list. -/
def propLine (line : GoString) : Option (GoString × GoString) :=
  match FieldsFunc line propFieldsFunc with
  | [k, v] => if propPrefixes k then some (k, v) else none
  | _ => none

/-- Go's float64-to-time.Duration conversion: truncation toward zero, on the
ℚ embedding the truncated quotient of numerator by denominator. -/
def durationOfFloat (q : ℚ) : Int := Int.tdiv q.num (q.den : Int)

/-- Modelled from the spec: fmt.Sprintf with the %.2f verb (the fmt library
is outside the provided sources) — the value in decimal with exactly two
decimal places, here rounding half away from the lower integer. -/
def formatFloat2 (q : ℚ) : GoString :=
  let c : Int := round (q * 100)
  let sign : GoString := if c < 0 then ['-'] else []
  sign ++ Junit.natChars (c.natAbs / 100) ++ ['.'] ++ Junit.padZero 2 (c.natAbs % 100)

/-- The test-case the JUnit renderer builds for one Test: the source's
mutually exclusive if/else-if chain on the result written as one record. -/
def testcaseForTest (pkgName : GoString) (test : Test) : Junit.Testcase :=
  { Classname := pkgName
    Name := test.Name
    Time := Junit.FormatDuration test.Duration
    Failure := if test.Result = Result.Fail then
        some { Message := strFailed, Data := formatOutput test.Output test.Level } else none
    Skipped := if test.Result = Result.Skip then
        some { Message := formatOutput test.Output test.Level } else none
    Error := if test.Result = Result.Unknown then
        some { Message := strNoResult, Data := formatOutput test.Output test.Level } else none }

/-- The test-case the JUnit renderer builds for one (merged) Benchmark. -/
def testcaseForBenchmark (pkgName : GoString) (bm : Benchmark) : Junit.Testcase :=
  { Classname := pkgName
    Name := bm.Name
    Time := Junit.FormatBenchmarkTime (durationOfFloat bm.NsPerOp)
    Failure := if bm.Result = Result.Fail then some { Message := strFailed } else none }

/-- The synthetic test-case for a package's BuildError. -/
def buildErrorTestcase (e : Error) : Junit.Testcase :=
  { Classname := e.Name
    Name := e.Cause
    Time := Junit.FormatDuration 0
    Error := some { Message := strBuildError, Data := List.intercalate ['\n'] e.Output } }

/-- The synthetic test-case for a package's RunError. -/
def runErrorTestcase (e : Error) : Junit.Testcase :=
  { Classname := e.Name
    Name := strFailureName
    Time := Junit.FormatDuration 0
    Error := some { Message := strRunError, Data := List.intercalate ['\n'] e.Output } }

/-- The per-package body of gtr.JUnit, in the source's order: system-out for
non-empty package output; the coverage property when coverage > 0; one
property per allow-listed output line; one test-case per test (accumulating
test durations); one test-case per merged benchmark; the synthetic
build-error and run-error test-cases; finally the suite time — the summed
test durations when the package's own duration is zero, else the package's
duration. -/
def suiteForPackage (timestamp hostname : GoString) (pkg : Package) : Junit.Testsuite :=
  let duration := pkg.Tests.foldl (fun d t => d + t.Duration) 0
  let suite : Junit.Testsuite :=
    { Name := pkg.Name, Timestamp := timestamp, Hostname := hostname }
  let suite := if 0 < pkg.Output.length then
      { suite with SystemOut := some { Data := formatOutput pkg.Output 0 } } else suite
  let suite := if 0 < pkg.Coverage then
      suite.AddProperty covKey (formatFloat2 pkg.Coverage) else suite
  let suite := pkg.Output.foldl
    (fun s line =>
      match propLine line with
      | some kv => s.AddProperty kv.1 kv.2
      | none => s) suite
  let suite := pkg.Tests.foldl (fun s t => s.AddTestcase (testcaseForTest pkg.Name t)) suite
  let suite := (mergeBenchmarks pkg.Benchmarks).foldl
    (fun s bm => s.AddTestcase (testcaseForBenchmark pkg.Name bm)) suite
  let suite := if pkg.BuildError.Name ≠ [] then
      suite.AddTestcase (buildErrorTestcase pkg.BuildError) else suite
  let suite := if pkg.RunError.Name ≠ [] then
      suite.AddTestcase (runErrorTestcase pkg.RunError) else suite
  { suite with
    Time := if pkg.Duration = 0 then Junit.FormatDuration duration
      else Junit.FormatDuration pkg.Duration }

/-- gtr.JUnit: one suite per package. The Go function takes `now : time.Time`
and renders it to RFC3339 through the external time library; the rendered
timestamp string is the parameter here. -/
def JUnit (report : Report) (hostname : GoString) (timestamp : GoString) : Junit.Testsuites :=
  report.Packages.foldl (fun ss pkg => ss.AddSuite (suiteForPackage timestamp hostname pkg)) {}

/-- Counterexample input: benchmark "B" with 1 byte/op. -/
def bmBytesOne : Benchmark := { Name := "B".toList, BytesPerOp := 1 }

/-- Counterexample input: benchmark "B" with 2 bytes/op. -/
def bmBytesTwo : Benchmark := { Name := "B".toList, BytesPerOp := 2 }

/-- Failing input for the benchmark-failure claim: a failed benchmark. -/
def bmFailInput : Benchmark :=
  { Name := "BenchFail".toList, Result := Result.Fail, Iterations := 1, NsPerOp := 100 }

/-- Failing input for the benchmark-failure claim: its package. -/
def pkgBenchFail : Package := { Name := "pkg".toList, Benchmarks := [bmFailInput] }

end Gtr

namespace Gtr

theorem takeWhile_space_eq_replicate (line : GoString) :
    line.takeWhile (fun c => c == ' ') =
      List.replicate (line.takeWhile fun c => c == ' ').length ' ' := by
  induction line with
  | nil => rfl
  | cons a t ih =>
    by_cases h : a = ' '
    · subst h
      have hstep : List.takeWhile (fun c => c == ' ') (' ' :: t)
          = ' ' :: List.takeWhile (fun c => c == ' ') t := by
        simp [List.takeWhile_cons]
      rw [hstep, List.length_cons, List.replicate_succ]
      exact congrArg (' ' :: ·) ih
    · have hstep : List.takeWhile (fun c => c == ' ') (a :: t) = [] := by
        simp [List.takeWhile_cons, h]
      rw [hstep]
      rfl

theorem dropWhile_head_not (p : Char → Bool) (l : GoString) :
    ∀ c, (l.dropWhile p).head? = some c → p c = false := by
  induction l with
  | nil => intro c h; simp at h
  | cons a t ih =>
    intro c h
    by_cases hp : p a
    · rw [List.dropWhile_cons_of_pos hp] at h
      exact ih c h
    · rw [List.dropWhile_cons_of_neg hp] at h
      simp at h
      subst h
      exact Bool.not_eq_true _ ▸ (by simpa using hp)

theorem four_not_prefix (rest : GoString) (h : ∀ c, rest.head? = some c → c ≠ ' ') :
    fourSpaces.isPrefixOf rest = false := by
  cases rest with
  | nil => decide
  | cons a t =>
    have ha : a ≠ ' ' := h a rfl
    show (List.replicate 4 ' ').isPrefixOf (a :: t) = false
    rw [show (4 : Nat) = 3 + 1 from rfl, List.replicate_succ]
    simp [List.isPrefixOf_cons₂]
    intro hcontra
    exact absurd hcontra.symm ha

theorem trimLoop_replicate (k : Nat) :
    ∀ (q : Nat) (rest : GoString), (∀ c, rest.head? = some c → c ≠ ' ') →
      trimLoop k (List.replicate (4 * q) ' ' ++ rest) =
        List.replicate (4 * (q - min k q)) ' ' ++ rest := by
  induction k with
  | zero => intro q rest _; simp [trimLoop]
  | succ k ih =>
    intro q rest h
    cases q with
    | zero =>
      have hnp : fourSpaces.isPrefixOf rest = false := four_not_prefix rest h
      have h0 := ih 0 rest h
      rw [show (0 : Nat) - min k 0 = 0 from by omega] at h0
      rw [show (0 : Nat) - min (k + 1) 0 = 0 from by omega]
      simp only [Nat.mul_zero, List.replicate_zero, List.nil_append] at h0 ⊢
      show trimLoop k (TrimPrefix rest fourSpaces) = rest
      rw [TrimPrefix, if_neg (by simp [hnp]), h0]
    | succ q' =>
      have hsplit : List.replicate (4 * (q' + 1)) ' ' ++ rest
          = fourSpaces ++ (List.replicate (4 * q') ' ' ++ rest) := by
        rw [← List.append_assoc, fourSpaces, ← List.replicate_add]
        congr 2
        omega
      have hpre : fourSpaces.isPrefixOf
          (fourSpaces ++ (List.replicate (4 * q') ' ' ++ rest)) = true := by
        rw [List.isPrefixOf_iff_prefix]
        exact List.prefix_append _ _
      rw [hsplit]
      show trimLoop k (TrimPrefix (fourSpaces ++ (List.replicate (4 * q') ' ' ++ rest)) fourSpaces) = _
      rw [TrimPrefix, if_pos hpre, List.drop_left]
      rw [ih q' rest h]
      congr 2
      omega

theorem natCast_tmod_four (m : Nat) : Int.tmod (m : Int) 4 = ((m % 4 : Nat) : Int) := rfl

/-- C2 (amended): when the leading-space count is a (nonnegative) multiple of
4 the normalizer strips exactly `min (level+1) (count/4)` groups of 4 leading
spaces and then one leading tab if present; otherwise (including all-space
lines, whose measured index is -1) only a leading tab is stripped. -/
theorem trimOutputPrefix_spec (line : GoString) (level : Nat) :
    trimOutputPrefix line level =
      TrimPrefix
        (if Int.tmod (goIndexNonSpace line) 4 = 0 then
          line.drop (4 * min (level + 1) ((line.takeWhile fun c => c == ' ').length / 4))
        else line)
        ['\t'] := by
  show TrimPrefix
      (if Int.tmod (goIndexNonSpace line) 4 = 0
        then trimLoop (((level : Int)) + 1).toNat line else line) ['\t'] = _
  by_cases hc : Int.tmod (goIndexNonSpace line) 4 = 0
  · rw [if_pos hc, if_pos hc]
    congr 1
    have htonat : (((level : Int)) + 1).toNat = level + 1 := by omega
    rw [htonat]
    have hall : line.all (fun c => c == ' ') = false := by
      by_contra hcontra
      have : line.all (fun c => c == ' ') = true := by
        cases h : line.all (fun c => c == ' ') with
        | false => exact absurd h hcontra
        | true => rfl
      rw [goIndexNonSpace, if_pos this] at hc
      exact absurd hc (by decide)
    set m := (line.takeWhile fun c => c == ' ').length with hm
    have hidx : goIndexNonSpace line = (m : Int) := by
      rw [goIndexNonSpace, if_neg (by simp [hall])]
    have hm4 : m % 4 = 0 := by
      rw [hidx, natCast_tmod_four] at hc
      exact_mod_cast hc
    obtain ⟨q, hq⟩ : ∃ q, m = 4 * q :=
      ⟨m / 4, (Nat.mul_div_cancel' (Nat.dvd_of_mod_eq_zero hm4)).symm⟩
    have hrest : ∀ c, (line.dropWhile (fun c => c == ' ')).head? = some c → c ≠ ' ' := by
      intro c h hsp
      have := dropWhile_head_not (fun c => c == ' ') line c h
      rw [hsp] at this
      simp at this
    have hline : line = List.replicate (4 * q) ' ' ++ line.dropWhile (fun c => c == ' ') := by
      conv_lhs => rw [← List.takeWhile_append_dropWhile (p := fun c => c == ' ') (l := line)]
      rw [takeWhile_space_eq_replicate, ← hm, hq]
    have hq4 : m / 4 = q := by omega
    rw [hq4]
    conv_lhs => rw [hline]
    conv_rhs => rw [hline]
    rw [trimLoop_replicate (level + 1) q _ hrest]
    rw [List.drop_append_eq_append_drop, List.drop_replicate]
    have hlen : (List.replicate (4 * q) ' ').length = 4 * q := List.length_replicate _ _
    rw [hlen]
    have hle : 4 * min (level + 1) q ≤ 4 * q := by
      have := Nat.min_le_right (level + 1) q
      omega
    rw [show 4 * min (level + 1) q - 4 * q = 0 from by omega, List.drop_zero]
    congr 2
    omega
  · rw [if_neg hc, if_neg hc]

/-- C9: a line consisting entirely of spaces (the empty line included) is
left intact by output normalization at every level: its measured index is
-1, which Go's truncated `%` does not treat as a multiple of 4, and an
all-space line has no leading tab. -/
theorem trimOutputPrefix_all_space (m : Nat) (level : Int) :
    goIndexNonSpace (List.replicate m ' ') = -1 ∧
      trimOutputPrefix (List.replicate m ' ') level = List.replicate m ' ' := by
  have hall : (List.replicate m ' ').all (fun c => c == ' ') = true := by
    simp [List.all_eq_true, List.mem_replicate]
  have hidx : goIndexNonSpace (List.replicate m ' ') = -1 := by
    rw [goIndexNonSpace, if_pos hall]
  refine ⟨hidx, ?_⟩
  show TrimPrefix
      (if Int.tmod (goIndexNonSpace (List.replicate m ' ')) 4 = 0
        then trimLoop (level + 1).toNat (List.replicate m ' ') else List.replicate m ' ')
      ['\t'] = _
  rw [hidx, if_neg (by decide)]
  rw [TrimPrefix]
  cases m with
  | zero => simp
  | succ m' =>
    rw [if_neg ?_]
    rw [List.replicate_succ]
    simp [List.isPrefixOf_cons₂]

/-- C2 (counterexample): a line with 4 leading spaces at level 1 has its
space count (4) a multiple of 4, yet only one four-space group is stripped,
not the level+1 = 2 groups (8 characters) the claim requires. -/
theorem trimOutputPrefix_counterexample :
    trimOutputPrefix ("    x".toList) 1 = "x".toList ∧
      ¬ ("x".toList = ("    x".toList).drop (4 * (1 + 1))) := by decide

end Gtr

namespace Gtr

theorem foldl_add_eq_sum {α M : Type} [AddCommMonoid M] (f : α → M) (l : List α) :
    ∀ init : M, l.foldl (fun a b => a + f b) init = init + (l.map f).sum := by
  induction l with
  | nil => intro init; simp
  | cons x t ih =>
    intro init
    rw [List.foldl_cons, ih, List.map_cons, List.sum_cons, add_assoc]

theorem firstSeenAux_congr (s1 s2 : List GoString) (bs : List Benchmark)
    (h : ∀ x, x ∈ s1 ↔ x ∈ s2) : firstSeenAux s1 bs = firstSeenAux s2 bs := by
  induction bs generalizing s1 s2 with
  | nil => rfl
  | cons b t ih =>
    simp only [firstSeenAux]
    by_cases hb : b.Name ∈ s1
    · rw [if_pos hb, if_pos ((h _).1 hb)]
      exact ih _ _ h
    · rw [if_neg hb, if_neg (fun hc => hb ((h _).2 hc))]
      congr 1
      apply ih
      intro x
      simp only [List.mem_cons]
      rw [h x]

theorem mergeStubs_eq (bs : List Benchmark) :
    ∀ acc : List Benchmark,
      bs.foldl
        (fun (acc : List Benchmark) bm =>
          if acc.any fun m => m.Name == bm.Name then acc else acc ++ [{ Name := bm.Name }])
        acc
      = acc ++ (firstSeenAux (acc.map fun m => m.Name) bs).map benchStub := by
  induction bs with
  | nil => intro acc; simp [firstSeenAux]
  | cons b t ih =>
    intro acc
    rw [List.foldl_cons]
    by_cases hb : b.Name ∈ acc.map fun m => m.Name
    · have hany : (acc.any fun m => m.Name == b.Name) = true := by
        rw [List.any_eq_true]
        rcases List.mem_map.mp hb with ⟨m, hm, he⟩
        exact ⟨m, hm, by simp [he]⟩
      simp only [hany, if_true]
      rw [ih acc]
      simp only [firstSeenAux, if_pos hb]
    · have hany : (acc.any fun m => m.Name == b.Name) = false := by
        rw [List.any_eq_false]
        intro m hm
        intro hc
        exact hb (List.mem_map.mpr ⟨m, hm, by simpa using hc⟩)
      simp only [hany, Bool.false_eq_true, if_false]
      have hih := ih (acc ++ [({ Name := b.Name } : Benchmark)])
      rw [hih]
      simp only [firstSeenAux, if_neg hb, List.map_cons, List.map_append, List.map_cons,
        List.map_nil]
      rw [firstSeenAux_congr ((acc.map fun m => m.Name) ++ [b.Name]) (b.Name :: acc.map fun m => m.Name) t
        (by intro x; simp [or_comm])]
      show (acc ++ [benchStub b.Name]) ++ _ = _
      rw [List.append_assoc, List.singleton_append]

theorem firstSeenAux_nodup (bs : List Benchmark) :
    ∀ seen, (firstSeenAux seen bs).Nodup ∧ ∀ x ∈ firstSeenAux seen bs, x ∉ seen := by
  induction bs with
  | nil => intro seen; exact ⟨List.nodup_nil, by simp [firstSeenAux]⟩
  | cons b t ih =>
    intro seen
    by_cases hb : b.Name ∈ seen
    · simp only [firstSeenAux, if_pos hb]
      exact ih seen
    · simp only [firstSeenAux, if_neg hb]
      obtain ⟨hnd, hns⟩ := ih (b.Name :: seen)
      refine ⟨List.Nodup.cons (fun hmem => hns _ hmem (List.mem_cons_self _ _)) hnd, ?_⟩
      intro x hx hxseen
      rcases List.mem_cons.mp hx with rfl | hx'
      · exact hb hxseen
      · exact hns x hx' (List.mem_cons_of_mem _ hxseen)

theorem firstSeenAux_mem (bs : List Benchmark) :
    ∀ seen x, x ∈ firstSeenAux seen bs ↔ ((x ∈ bs.map fun b => b.Name) ∧ x ∉ seen) := by
  induction bs with
  | nil => intro seen x; simp [firstSeenAux]
  | cons b t ih =>
    intro seen x
    by_cases hb : b.Name ∈ seen
    · simp only [firstSeenAux, if_pos hb, List.map_cons, List.mem_cons]
      rw [ih]
      constructor
      · rintro ⟨h1, h2⟩
        exact ⟨Or.inr h1, h2⟩
      · rintro ⟨h1 | h1, h2⟩
        · exact absurd (h1 ▸ hb) h2
        · exact ⟨h1, h2⟩
    · simp only [firstSeenAux, if_neg hb, List.map_cons, List.mem_cons]
      rw [ih]
      constructor
      · rintro (rfl | ⟨h1, h2⟩)
        · exact ⟨Or.inl rfl, hb⟩
        · exact ⟨Or.inr h1, fun hc => h2 (List.mem_cons_of_mem _ hc)⟩
      · rintro ⟨h1 | h1, h2⟩
        · exact Or.inl h1
        · by_cases hxb : x = b.Name
          · exact Or.inl hxb
          · refine Or.inr ⟨h1, ?_⟩
            intro hc
            rcases List.mem_cons.mp hc with h | h
            · exact hxb h
            · exact h2 h

theorem mergeBody_eq (bs : List Benchmark) (name : GoString) :
    ({ benchStub name with
        NsPerOp := ((bs.filter fun b => b.Name == name).foldl (fun a b => a + b.NsPerOp) 0)
          / (((bs.filter fun b => b.Name == name).length : ℚ))
        MBPerSec := ((bs.filter fun b => b.Name == name).foldl (fun a b => a + b.MBPerSec) 0)
          / (((bs.filter fun b => b.Name == name).length : ℚ))
        BytesPerOp := Int.tdiv
          ((bs.filter fun b => b.Name == name).foldl (fun a b => a + b.BytesPerOp) 0)
          (((bs.filter fun b => b.Name == name).length : Int))
        AllocsPerOp := Int.tdiv
          ((bs.filter fun b => b.Name == name).foldl (fun a b => a + b.AllocsPerOp) 0)
          (((bs.filter fun b => b.Name == name).length : Int)) } : Benchmark)
    = { Name := name
        NsPerOp := (((bs.filter fun b => b.Name == name).map fun b => b.NsPerOp).sum)
          / (((bs.filter fun b => b.Name == name).length : ℚ))
        MBPerSec := (((bs.filter fun b => b.Name == name).map fun b => b.MBPerSec).sum)
          / (((bs.filter fun b => b.Name == name).length : ℚ))
        BytesPerOp := Int.tdiv (((bs.filter fun b => b.Name == name).map fun b => b.BytesPerOp).sum)
          (((bs.filter fun b => b.Name == name).length : Int))
        AllocsPerOp := Int.tdiv (((bs.filter fun b => b.Name == name).map fun b => b.AllocsPerOp).sum)
          (((bs.filter fun b => b.Name == name).length : Int)) } := by
  rw [foldl_add_eq_sum (fun b : Benchmark => b.NsPerOp) _ 0,
    foldl_add_eq_sum (fun b : Benchmark => b.MBPerSec) _ 0,
    foldl_add_eq_sum (fun b : Benchmark => b.BytesPerOp) _ 0,
    foldl_add_eq_sum (fun b : Benchmark => b.AllocsPerOp) _ 0,
    zero_add, zero_add, zero_add, zero_add]
  rfl

theorem mergeBenchmarks_eq_mapSpec (bs : List Benchmark) :
    mergeBenchmarks bs = (firstSeenNames bs).map fun name =>
      let group := bs.filter fun b => b.Name == name
      { Name := name
        NsPerOp := ((group.map fun b => b.NsPerOp).sum) / ((group.length : ℚ))
        MBPerSec := ((group.map fun b => b.MBPerSec).sum) / ((group.length : ℚ))
        BytesPerOp := Int.tdiv ((group.map fun b => b.BytesPerOp).sum) ((group.length : Int))
        AllocsPerOp := Int.tdiv ((group.map fun b => b.AllocsPerOp).sum) ((group.length : Int)) } := by
  show (bs.foldl
      (fun (acc : List Benchmark) bm =>
        if acc.any fun m => m.Name == bm.Name then acc else acc ++ [{ Name := bm.Name }])
      ([] : List Benchmark)).map _ = _
  rw [mergeStubs_eq bs []]
  rw [show (([] : List Benchmark).map fun m => m.Name) = [] from rfl, List.nil_append,
    List.map_map]
  show List.map _ (firstSeenAux [] bs) = List.map _ (firstSeenNames bs)
  rw [firstSeenNames]
  apply List.map_congr_left
  intro name _
  exact mergeBody_eq bs name

theorem foldl_addTestcase {α : Type} (f : α → Junit.Testcase) (l : List α) :
    ∀ s : Junit.Testsuite,
      l.foldl (fun s x => s.AddTestcase (f x)) s
        = { s with Testcases := s.Testcases ++ l.map f } := by
  induction l with
  | nil => intro s; simp
  | cons x t ih =>
    intro s
    rw [List.foldl_cons, ih]
    simp [Junit.Testsuite.AddTestcase, List.append_assoc]

theorem foldl_scanProps (l : List GoString) :
    ∀ s : Junit.Testsuite,
      l.foldl
        (fun s line =>
          match propLine line with
          | some kv => s.AddProperty kv.1 kv.2
          | none => s) s
      = { s with Properties := s.Properties
            ++ (l.filterMap propLine).map fun kv => { Name := kv.1, Value := kv.2 } } := by
  induction l with
  | nil => intro s; simp
  | cons x t ih =>
    intro s
    rw [List.foldl_cons]
    cases h : propLine x with
    | none =>
      simp only [h]
      rw [ih]
      simp [List.filterMap_cons, h]
    | some kv =>
      simp only [h]
      rw [ih]
      simp [List.filterMap_cons, h, Junit.Testsuite.AddProperty, List.append_assoc]

theorem suiteForPackage_eq (ts hn : GoString) (pkg : Package) :
    suiteForPackage ts hn pkg =
      { Name := pkg.Name
        Timestamp := ts
        Hostname := hn
        Time := if pkg.Duration = 0 then
            Junit.FormatDuration ((pkg.Tests.map fun t => t.Duration).sum)
          else Junit.FormatDuration pkg.Duration
        Properties :=
          (if 0 < pkg.Coverage then
            [{ Name := covKey, Value := formatFloat2 pkg.Coverage }] else [])
          ++ (pkg.Output.filterMap propLine).map fun kv => { Name := kv.1, Value := kv.2 }
        SystemOut := if 0 < pkg.Output.length then
            some { Data := formatOutput pkg.Output 0 } else none
        Testcases :=
          pkg.Tests.map (testcaseForTest pkg.Name)
          ++ (mergeBenchmarks pkg.Benchmarks).map (testcaseForBenchmark pkg.Name)
          ++ (if pkg.BuildError.Name ≠ [] then [buildErrorTestcase pkg.BuildError] else [])
          ++ (if pkg.RunError.Name ≠ [] then [runErrorTestcase pkg.RunError] else []) } := by
  simp only [suiteForPackage]
  rw [foldl_scanProps pkg.Output, foldl_addTestcase (testcaseForTest pkg.Name) pkg.Tests,
    foldl_addTestcase (testcaseForBenchmark pkg.Name) (mergeBenchmarks pkg.Benchmarks)]
  rw [foldl_add_eq_sum (fun t : Test => t.Duration) pkg.Tests 0, zero_add]
  by_cases h1 : 0 < pkg.Output.length <;>
  by_cases h2 : 0 < pkg.Coverage <;>
  by_cases h3 : pkg.BuildError.Name ≠ [] <;>
  by_cases h4 : pkg.RunError.Name ≠ [] <;>
    simp [h1, h2, h3, h4, Junit.Testsuite.AddProperty, Junit.Testsuite.AddTestcase,
      List.append_assoc]

end Gtr

/-- C1: `IsSuccessful` returns false iff some package has a BuildError or
RunError (signaled by a non-empty Name) or contains a test whose Result is
neither Pass nor Skip; otherwise it returns true. -/
theorem isSuccessful_eq_false_iff (r : Gtr.Report) :
    r.IsSuccessful = false ↔
      ∃ pkg ∈ r.Packages,
        pkg.BuildError.Name ≠ [] ∨ pkg.RunError.Name ≠ [] ∨
          ∃ t ∈ pkg.Tests, t.Result ≠ Gtr.Result.Pass ∧ t.Result ≠ Gtr.Result.Skip := by
  rw [Bool.eq_false_iff]
  simp only [Ne, Gtr.Report.IsSuccessful, List.all_eq_true, Bool.and_eq_true,
    Bool.not_eq_true', Bool.or_eq_false_iff, bne_eq_false_iff_eq,
    Bool.and_eq_false_iff, bne_iff_ne, not_forall]
  push_neg
  constructor
  · rintro ⟨pkg, hpkg, hbad⟩
    refine ⟨pkg, hpkg, ?_⟩
    by_cases hb : pkg.BuildError.Name = []
    · by_cases hr : pkg.RunError.Name = []
      · have h2 := hbad ⟨hb, hr⟩
        tauto
      · tauto
    · tauto
  · rintro ⟨pkg, hpkg, hbad⟩
    refine ⟨pkg, hpkg, ?_⟩
    rintro ⟨hb, hr⟩
    tauto

/-- C3 (amended): benchmark aggregation produces one record per distinct
name, in first-seen order of distinct names; ns/op and MB/s are the exact
arithmetic means of the group; bytes/op and allocs/op are Go's truncated
integer quotient of the group's sum by the group size (not the exact
arithmetic mean); the iteration count (like Result and Output) is left at
the stub's zero value, i.e. not aggregated. -/
theorem mergeBenchmarks_characterization (bs : List Gtr.Benchmark) :
    (Gtr.mergeBenchmarks bs = (Gtr.firstSeenNames bs).map fun name =>
      let group := bs.filter fun b => b.Name == name
      { Name := name
        NsPerOp := ((group.map fun b => b.NsPerOp).sum) / ((group.length : ℚ))
        MBPerSec := ((group.map fun b => b.MBPerSec).sum) / ((group.length : ℚ))
        BytesPerOp := Int.tdiv ((group.map fun b => b.BytesPerOp).sum) ((group.length : Int))
        AllocsPerOp := Int.tdiv ((group.map fun b => b.AllocsPerOp).sum) ((group.length : Int)) })
    ∧ (Gtr.firstSeenNames bs).Nodup
    ∧ (∀ x, x ∈ Gtr.firstSeenNames bs ↔ x ∈ bs.map fun b => b.Name) := by
  refine ⟨Gtr.mergeBenchmarks_eq_mapSpec bs, (Gtr.firstSeenAux_nodup bs []).1, ?_⟩
  intro x
  rw [Gtr.firstSeenNames, Gtr.firstSeenAux_mem]
  simp

/-- C3 (counterexample): two benchmarks named "B" with 1 and 2 bytes/op merge
to a record with 1 byte/op, while the arithmetic mean of the metric is 3/2. -/
theorem mergeBenchmarks_bytes_counterexample :
    (Gtr.mergeBenchmarks [Gtr.bmBytesOne, Gtr.bmBytesTwo]).map (fun b => b.BytesPerOp) = [1] ∧
      ¬ (((1 : Int) : ℚ) =
        ((Gtr.bmBytesOne.BytesPerOp : ℚ) + (Gtr.bmBytesTwo.BytesPerOp : ℚ)) / 2) := by
  constructor
  · decide
  · show ¬ (((1 : Int) : ℚ) = (((1 : Int) : ℚ) + ((2 : Int) : ℚ)) / 2)
    norm_num

/-- C4: per-Test rendering — a Fail result yields a failure record with the
fixed message "Failed" and the level-normalized output as detail; Skip yields
a skipped record whose message is the normalized output and whose detail is
empty; Unknown yields an error record with the fixed message
"No test result found" and the normalized output as detail; Pass yields a
test-case with no failure, error or skipped record. -/
theorem testcaseForTest_children (pkgName : GoString) (t : Gtr.Test) :
    (t.Result = Gtr.Result.Fail → Gtr.testcaseForTest pkgName t =
      { Classname := pkgName, Name := t.Name, Time := Junit.FormatDuration t.Duration,
        Failure := some { Message := Gtr.strFailed, Data := Gtr.formatOutput t.Output t.Level },
        Error := none, Skipped := none })
    ∧ (t.Result = Gtr.Result.Skip → Gtr.testcaseForTest pkgName t =
      { Classname := pkgName, Name := t.Name, Time := Junit.FormatDuration t.Duration,
        Skipped := some { Message := Gtr.formatOutput t.Output t.Level, Data := [] },
        Failure := none, Error := none })
    ∧ (t.Result = Gtr.Result.Unknown → Gtr.testcaseForTest pkgName t =
      { Classname := pkgName, Name := t.Name, Time := Junit.FormatDuration t.Duration,
        Error := some { Message := Gtr.strNoResult, Data := Gtr.formatOutput t.Output t.Level },
        Failure := none, Skipped := none })
    ∧ (t.Result = Gtr.Result.Pass → Gtr.testcaseForTest pkgName t =
      { Classname := pkgName, Name := t.Name, Time := Junit.FormatDuration t.Duration,
        Failure := none, Error := none, Skipped := none }) := by
  refine ⟨?_, ?_, ?_, ?_⟩ <;> intro h <;> simp [Gtr.testcaseForTest, h]

/-- C5: the rendered suite's time is the sum of the package's tests'
durations when the package's own duration is zero, and the package's own
duration otherwise; benchmarks never contribute. -/
theorem suite_time_rule (ts hn : GoString) (pkg : Gtr.Package) :
    (Gtr.suiteForPackage ts hn pkg).Time =
      if pkg.Duration = 0 then
        Junit.FormatDuration ((pkg.Tests.map fun t => t.Duration).sum)
      else Junit.FormatDuration pkg.Duration := by
  rw [Gtr.suiteForPackage_eq]

/-- C7: the rendered suite's test-cases are the per-test cases, then the
per-merged-benchmark cases, then — exactly when a BuildError is present
(non-empty Name) — exactly one synthetic test-case classed with the failing
name, named by the cause, whose error record carries the raw output joined
by newlines, then — exactly when a RunError is present — exactly one
synthetic test-case classed with the run-error name, with fixed name
"Failure", whose error record carries the raw output joined by newlines. -/
theorem suite_error_testcases (ts hn : GoString) (pkg : Gtr.Package) :
    (Gtr.suiteForPackage ts hn pkg).Testcases =
      pkg.Tests.map (Gtr.testcaseForTest pkg.Name)
      ++ (Gtr.mergeBenchmarks pkg.Benchmarks).map (Gtr.testcaseForBenchmark pkg.Name)
      ++ (if pkg.BuildError.Name ≠ [] then
          [{ Classname := pkg.BuildError.Name,
             Name := pkg.BuildError.Cause,
             Time := Junit.FormatDuration 0,
             Error := some { Message := Gtr.strBuildError, Data := List.intercalate ['\n'] pkg.BuildError.Output } }] else [])
      ++ (if pkg.RunError.Name ≠ [] then
          [{ Classname := pkg.RunError.Name,
             Name := Gtr.strFailureName,
             Time := Junit.FormatDuration 0,
             Error := some { Message := Gtr.strRunError, Data := List.intercalate ['\n'] pkg.RunError.Output } }] else []) := by
  rw [Gtr.suiteForPackage_eq]
  rfl

/-- C8: the rendered suite's properties are the coverage property (when
coverage is positive) followed by one property per package output line that
FieldsFunc splits into exactly two fields with the first on the fixed
allow-list (goos, goarch, pkg); every matching line contributes, so
duplicate keys are all retained in scan order. -/
theorem suite_properties_rule (ts hn : GoString) (pkg : Gtr.Package) :
    (Gtr.suiteForPackage ts hn pkg).Properties =
      (if 0 < pkg.Coverage then
        [{ Name := Gtr.covKey, Value := Gtr.formatFloat2 pkg.Coverage }] else [])
      ++ (pkg.Output.filterMap Gtr.propLine).map fun kv => { Name := kv.1, Value := kv.2 } := by
  rw [Gtr.suiteForPackage_eq]

theorem propLine_key (line : GoString) (kv : GoString × GoString)
    (h : Gtr.propLine line = some kv) :
    kv.1 = "goos".toList ∨ kv.1 = "goarch".toList ∨ kv.1 = "pkg".toList := by
  unfold Gtr.propLine at h
  rcases hF : Gtr.FieldsFunc line Gtr.propFieldsFunc with _ | ⟨k, _ | ⟨v, _ | _⟩⟩ <;>
    rw [hF] at h <;> simp only [] at h
  · exact absurd h (by simp)
  · exact absurd h (by simp)
  · by_cases hp : Gtr.propPrefixes k = true
    · rw [if_pos hp] at h
      have hkv : kv = (k, v) := by
        have := h
        simp at this
        exact this.symm
      subst hkv
      have := hp
      rw [Gtr.propPrefixes] at this
      simp only [Bool.or_eq_true, beq_iff_eq] at this
      rcases this with (h | h) | h
      · exact Or.inl h
      · exact Or.inr (Or.inl h)
      · exact Or.inr (Or.inr h)
    · rw [if_neg hp] at h
      exact absurd h (by simp)
  · exact absurd h (by simp)

theorem cov_key_ne_goos : Gtr.covKey ≠ "goos".toList := by decide

theorem cov_key_ne_goarch : Gtr.covKey ≠ "goarch".toList := by decide

theorem cov_key_ne_pkg : Gtr.covKey ≠ "pkg".toList := by decide

/-- C10: the rendered suite's properties named "coverage.statements.pct" are
exactly one property with the two-decimal rendering of the coverage when the
coverage is strictly positive, and none otherwise (the output-line scan only
produces keys from the allow-list, never the coverage key). -/
theorem coverage_property_rule (ts hn : GoString) (pkg : Gtr.Package) :
    ((Gtr.suiteForPackage ts hn pkg).Properties.filter fun p => p.Name == Gtr.covKey) =
      (if 0 < pkg.Coverage then
        [{ Name := Gtr.covKey, Value := Gtr.formatFloat2 pkg.Coverage }] else []) := by
  rw [Gtr.suiteForPackage_eq]
  show ((if 0 < pkg.Coverage then
      [({ Name := Gtr.covKey, Value := Gtr.formatFloat2 pkg.Coverage } : Junit.Property)] else [])
      ++ (pkg.Output.filterMap Gtr.propLine).map fun kv =>
        ({ Name := kv.1, Value := kv.2 } : Junit.Property)).filter
      (fun p => p.Name == Gtr.covKey) = _
  rw [List.filter_append]
  have h2 : (((pkg.Output.filterMap Gtr.propLine).map fun kv =>
      ({ Name := kv.1, Value := kv.2 } : Junit.Property)).filter
      (fun p => p.Name == Gtr.covKey)) = [] := by
    rw [List.filter_eq_nil_iff]
    intro p hp
    rcases List.mem_map.mp hp with ⟨kv, hkv, rfl⟩
    rcases List.mem_filterMap.mp hkv with ⟨line, _, hpl⟩
    have hkey := propLine_key line kv hpl
    show ¬ (kv.1 == Gtr.covKey) = true
    simp only [beq_iff_eq]
    rcases hkey with h | h | h <;> rw [h]
    · exact fun hc => cov_key_ne_goos hc.symm
    · exact fun hc => cov_key_ne_goarch hc.symm
    · exact fun hc => cov_key_ne_pkg hc.symm
  rw [h2, List.append_nil]
  by_cases hcov : 0 < pkg.Coverage
  · rw [if_pos hcov]
    simp [List.filter_cons]
  · rw [if_neg hcov]
    rfl

/-- C6 (evaluation at the failing input): a package whose single benchmark
has Result Fail renders to a suite whose single benchmark test-case has no
failure record, because mergeBenchmarks rebuilds the record from a
zero-valued stub and never copies the Result. -/
theorem benchmark_fail_no_failure_record :
    Gtr.bmFailInput.Result = Gtr.Result.Fail ∧
      ((Gtr.suiteForPackage [] [] Gtr.pkgBenchFail).Testcases.map fun tc => (tc.Name, tc.Failure))
        = [(Gtr.bmFailInput.Name, none)] := by
  constructor
  · rfl
  · decide
